import Mathlib

/-!
Verification of the column-selection core of `subset_beagle.py`, a tool that
subsets a Beagle genotype-likelihood matrix (tab-delimited, 3 fixed marker
columns followed by 3 columns per sample) by sample name.

The Python source is embedded shallowly:

* `find_columns_to_keep` mirrors the function of the same name: it splits the
  header on tabs, walks the sample fields at positions 3, 6, 9, ... (0-based),
  collects the 1-based column triple of every kept sample, and partitions the
  sample IDs into kept/removed sets.  The Python `sys.exit(1)` on an empty
  kept set is modelled as `none`.
* `read_sample_list` mirrors the loader of the sample-ID list file, with the
  file's lines given as a `List String`.
* `subset_beagle` mirrors the orchestration: input-existence check, default
  output suffix, sample-list load, header selection, and the post-transform
  verification of lines 253-269, with the external `awk` pipeline abstracted
  as a `TransformResult` (its exit code and the resulting output-file state).
-/

namespace SubsetBeagle

/-- Python whitespace characters recognised by `str.strip` (ASCII range). -/
def isPySpace (c : Char) : Bool :=
  c = ' ' || c = '\t' || c = '\n' || c = '\r' || c = Char.ofNat 11 || c = Char.ofNat 12

/-- Model of Python `str.strip()`: drop leading and trailing whitespace. -/
def pyStrip (s : String) : String :=
  String.mk (((s.data.dropWhile isPySpace).reverse.dropWhile isPySpace).reverse)

/-- Model of Python `str.endswith(suffix)`. -/
def pyEndsWith (s suffix : String) : Bool :=
  List.isSuffixOf suffix.data s.data

/-- Helper for `splitTab`: split the remaining characters at every tab, with
`acc` holding the characters of the current field in reverse. -/
def splitTabAux : List Char → List Char → List String
  | [], acc => [String.mk acc.reverse]
  | c :: cs, acc =>
      if c = '\t' then String.mk acc.reverse :: splitTabAux cs []
      else splitTabAux cs (c :: acc)

/-- Model of Python `header_line.split('\t')` (line 72): the fields between
the tab separators, in order; the empty string splits to `[""]`. -/
def splitTab (s : String) : List String :=
  splitTabAux s.data []

/-- One iteration of the accumulation loop of `read_sample_list`
(lines 26-29 of the source): strip the line and insert it when non-blank. -/
def addSample (samples : Finset String) (line : String) : Finset String :=
  let sample_id := pyStrip line
  if sample_id ≠ "" then insert sample_id samples else samples

/-- `read_sample_list` (lines 20-41): build the set of stripped non-blank
lines; the `sys.exit(1)` on an empty set is modelled as `none`. -/
def read_sample_list (lines : List String) : Option (Finset String) :=
  let samples := lines.foldl addSample ∅
  if samples = ∅ then none else some samples

/-- The per-sample predicate of lines 86-88: in remove mode keep a sample not
in the list, in keep mode keep a sample in the list. -/
def keepGroup (sample_list : Finset String) (remove_mode : Bool)
    (sample_id : String) : Bool :=
  if remove_mode then decide (sample_id ∉ sample_list)
  else decide (sample_id ∈ sample_list)

/-- The sample IDs read by the loop `for i in range(3, len(fields), 3)` on the
sample fields (the header fields after the first 3): the field at every
position `3*k`, including the first field of a trailing partial group. -/
def sampleIds : List String → List String
  | [] => []
  | [s] => [s]
  | [s, _] => [s]
  | s :: _ :: _ :: rest => s :: sampleIds rest

/-- The 1-based column triples `[i+1, i+2, i+3]` accumulated by the loop for
every kept sample, where `i` is the 0-based field index of the group head. -/
def selCols (sample_list : Finset String) (remove_mode : Bool) :
    List String → Nat → List Nat
  | [], _ => []
  | [s], i =>
      if keepGroup sample_list remove_mode s then [i + 1, i + 2, i + 3] else []
  | [s, _], i =>
      if keepGroup sample_list remove_mode s then [i + 1, i + 2, i + 3] else []
  | s :: _ :: _ :: rest, i =>
      if keepGroup sample_list remove_mode s then
        (i + 1) :: (i + 2) :: (i + 3) :: selCols sample_list remove_mode rest (i + 3)
      else selCols sample_list remove_mode rest (i + 3)

/-- The `samples_kept` set accumulated by the loop. -/
def selKept (sample_list : Finset String) (remove_mode : Bool) :
    List String → Finset String
  | [] => ∅
  | [s] => if keepGroup sample_list remove_mode s then {s} else ∅
  | [s, _] => if keepGroup sample_list remove_mode s then {s} else ∅
  | s :: _ :: _ :: rest =>
      if keepGroup sample_list remove_mode s then
        insert s (selKept sample_list remove_mode rest)
      else selKept sample_list remove_mode rest

/-- `find_columns_to_keep` (lines 59-102).  Splits the header on tabs, keeps
the fixed columns `[1, 2, 3]`, walks the sample groups, and returns
`(columns_to_keep, samples_kept, samples_removed)`; the `sys.exit(1)` when no
sample would remain is modelled as `none`. -/
def find_columns_to_keep (header_line : String) (sample_list : Finset String)
    (remove_mode : Bool) : Option (List Nat × Finset String × Finset String) :=
  let sampleFields := (splitTab header_line).drop 3
  let samples_kept := selKept sample_list remove_mode sampleFields
  if samples_kept = ∅ then none
  else
    some (1 :: 2 :: 3 :: selCols sample_list remove_mode sampleFields 3,
          samples_kept,
          (sampleIds sampleFields).toFinset \ samples_kept)

/-- The set of sample IDs declared by a header, as parsed by the source. -/
def headerSamples (header_line : String) : Finset String :=
  (sampleIds ((splitTab header_line).drop 3)).toFinset

/-- Default output-suffix rule of line 184: append `.beagle` when the output
name ends with neither `.beagle` nor `.beagle.gz`. -/
def addBeagleSuffix (output_file : String) : String :=
  if !(pyEndsWith output_file ".beagle") && !(pyEndsWith output_file ".beagle.gz")
  then output_file ++ ".beagle" else output_file

/-- `input_is_gz` of line 132: input compression from the `.gz` suffix. -/
def input_is_gz (input_file : String) : Bool :=
  pyEndsWith input_file ".gz"

/-- `output_is_gz` of line 133. -/
def output_is_gz (output_file : String) : Bool :=
  pyEndsWith output_file ".gz" || pyEndsWith output_file ".beagle.gz"

/-- The not-found warning sets computed by the reporting block
(lines 208-218): `sample_list - samples_removed - samples_kept` in remove
mode, `sample_list - samples_kept` in keep mode. -/
def samplesNotFound (sample_list samples_kept samples_removed : Finset String)
    (remove_mode : Bool) : Finset String :=
  if remove_mode then (sample_list \ samples_removed) \ samples_kept
  else sample_list \ samples_kept

/-- Errors on which the script calls `sys.exit(1)`. -/
inductive RunError
  | inputNotFound
  | emptySampleList
  | emptySelection
  | transformFailed (code : Int)
  | outputMissing
deriving DecidableEq

/-- Observable outcome of the external `awk` pipeline: its exit code and
whether/with which size the output file exists afterwards. -/
structure TransformResult where
  returnCode : Int
  outputExists : Bool
  outputSize : Nat
deriving DecidableEq

/-- The post-transform verification of lines 253-269: a non-zero exit code
fails; otherwise the run succeeds exactly when the output file exists, and the
reported size is whatever the file's size is (it is not checked). -/
def finishTransform (output_file : String) (tr : TransformResult) :
    Except RunError (String × Nat) :=
  if tr.returnCode ≠ 0 then Except.error (RunError.transformFailed tr.returnCode)
  else if tr.outputExists then Except.ok (output_file, tr.outputSize)
  else Except.error RunError.outputMissing

/-- `subset_beagle` (lines 163-278) as a pure pipeline: input-existence
check, default output suffix, sample-list load, header selection, then the
transform stage summarised by `tr`. -/
def subset_beagle (inputExists : Bool) (sampleListLines : List String)
    (header_line : String) (output_file : String) (remove_mode : Bool)
    (tr : TransformResult) : Except RunError (String × Nat) :=
  if !inputExists then Except.error RunError.inputNotFound
  else
    let out := addBeagleSuffix output_file
    match read_sample_list sampleListLines with
    | none => Except.error RunError.emptySampleList
    | some sample_list =>
      match find_columns_to_keep header_line sample_list remove_mode with
      | none => Except.error RunError.emptySelection
      | some _ => finishTransform out tr

/-- The header of test scenarios A-D of the specification. -/
def scenarioHeader : String :=
  "m\ta1\ta2\tS1\tS1\tS1\tS2\tS2\tS2\tS3\tS3\tS3"

instance {ε α : Type} [DecidableEq ε] [DecidableEq α] : DecidableEq (Except ε α) := fun x y =>
  match x, y with
  | .error a, .error b =>
      if h : a = b then isTrue (by rw [h]) else isFalse (by simp [h])
  | .ok a, .ok b =>
      if h : a = b then isTrue (by rw [h]) else isFalse (by simp [h])
  | .error _, .ok _ => isFalse (by simp)
  | .ok _, .error _ => isFalse (by simp)

/-! ## Helper lemmas about the selection loop -/

/-- Induction principle following the group structure of the selection loop:
empty, a partial trailing group of one or two fields, or a complete group
followed by the rest. -/
theorem groups_rec {motive : List String → Prop} (h0 : motive [])
    (h1 : ∀ s, motive [s]) (h2 : ∀ s t, motive [s, t])
    (h3 : ∀ s t u rest, motive rest → motive (s :: t :: u :: rest)) :
    ∀ l, motive l
  | [] => h0
  | [s] => h1 s
  | [s, t] => h2 s t
  | s :: t :: u :: rest => h3 s t u rest (groups_rec h0 h1 h2 h3 rest)

/-- `selKept` is the set of visited sample IDs passing the mode predicate. -/
theorem selKept_eq (sl : Finset String) (rm : Bool) (l : List String) :
    selKept sl rm l = ((sampleIds l).filter (keepGroup sl rm)).toFinset := by
  induction l using groups_rec with
  | h0 => simp [selKept, sampleIds]
  | h1 s =>
      by_cases h : keepGroup sl rm s <;> simp [selKept, sampleIds, h]
  | h2 s t =>
      by_cases h : keepGroup sl rm s <;> simp [selKept, sampleIds, h]
  | h3 s t u rest ih =>
      by_cases h : keepGroup sl rm s <;> simp [selKept, sampleIds, h, ih]

/-- Membership in `selKept`. -/
theorem mem_selKept {sl : Finset String} {rm : Bool} {l : List String}
    {s : String} :
    s ∈ selKept sl rm l ↔ s ∈ sampleIds l ∧ keepGroup sl rm s = true := by
  simp [selKept_eq, List.mem_filter]

/-- `selKept` is contained in the visited sample IDs. -/
theorem selKept_subset (sl : Finset String) (rm : Bool) (l : List String) :
    selKept sl rm l ⊆ (sampleIds l).toFinset := by
  intro s hs
  simp only [List.mem_toFinset]
  exact (mem_selKept.mp hs).1

/-- Each kept sample contributes exactly its 3-column group. -/
theorem selCols_length (sl : Finset String) (rm : Bool) (l : List String) :
    ∀ i, (selCols sl rm l i).length
      = 3 * ((sampleIds l).filter (keepGroup sl rm)).length := by
  induction l using groups_rec with
  | h0 => intro i; simp [selCols, sampleIds]
  | h1 s =>
      intro i
      by_cases h : keepGroup sl rm s <;> simp [selCols, sampleIds, h]
  | h2 s t =>
      intro i
      by_cases h : keepGroup sl rm s <;> simp [selCols, sampleIds, h]
  | h3 s t u rest ih =>
      intro i
      by_cases h : keepGroup sl rm s <;>
        simp [selCols, sampleIds, h, ih (i + 3), Nat.mul_add, Nat.mul_succ] <;> omega

/-- Every column index produced from start index `i` is above `i`. -/
theorem selCols_gt (sl : Finset String) (rm : Bool) (l : List String) :
    ∀ i x, x ∈ selCols sl rm l i → i < x := by
  induction l using groups_rec with
  | h0 => intro i x hx; simp [selCols] at hx
  | h1 s =>
      intro i x hx
      by_cases h : keepGroup sl rm s <;> simp [selCols, h] at hx <;> omega
  | h2 s t =>
      intro i x hx
      by_cases h : keepGroup sl rm s <;> simp [selCols, h] at hx <;> omega
  | h3 s t u rest ih =>
      intro i x hx
      by_cases h : keepGroup sl rm s <;> simp [selCols, h] at hx
      · rcases hx with hx | hx | hx | hx
        · omega
        · omega
        · omega
        · have := ih (i + 3) x hx; omega
      · have := ih (i + 3) x hx; omega

/-- The produced column list is strictly increasing. -/
theorem selCols_pairwise (sl : Finset String) (rm : Bool) (l : List String) :
    ∀ i, List.Pairwise (· < ·) (selCols sl rm l i) := by
  induction l using groups_rec with
  | h0 => intro i; simp [selCols]
  | h1 s =>
      intro i
      by_cases h : keepGroup sl rm s <;> simp [selCols, h] <;> omega
  | h2 s t =>
      intro i
      by_cases h : keepGroup sl rm s <;> simp [selCols, h] <;> omega
  | h3 s t u rest ih =>
      intro i
      by_cases h : keepGroup sl rm s <;> simp only [selCols, h, if_pos, if_neg]
      · simp only [List.pairwise_cons]
        refine ⟨?_, ?_, ?_, ih (i + 3)⟩
        · intro x hx
          simp at hx
          rcases hx with hx | hx | hx
          · omega
          · omega
          · have := selCols_gt sl rm rest (i + 3) x hx; omega
        · intro x hx
          simp at hx
          rcases hx with hx | hx
          · omega
          · have := selCols_gt sl rm rest (i + 3) x hx; omega
        · intro x hx
          have := selCols_gt sl rm rest (i + 3) x hx; omega
      · exact ih (i + 3)

/-- Every produced column index is at most `i` plus the field count plus 2
(the overshoot of a kept trailing partial group). -/
theorem selCols_le (sl : Finset String) (rm : Bool) (l : List String) :
    ∀ i x, x ∈ selCols sl rm l i → x ≤ i + l.length + 2 := by
  induction l using groups_rec with
  | h0 => intro i x hx; simp [selCols] at hx
  | h1 s =>
      intro i x hx
      simp only [List.length_cons, List.length_nil]
      by_cases h : keepGroup sl rm s <;> simp [selCols, h] at hx
      omega
  | h2 s t =>
      intro i x hx
      simp only [List.length_cons, List.length_nil]
      by_cases h : keepGroup sl rm s <;> simp [selCols, h] at hx
      omega
  | h3 s t u rest ih =>
      intro i x hx
      simp only [List.length_cons]
      by_cases h : keepGroup sl rm s <;> simp [selCols, h] at hx
      · rcases hx with hx | hx | hx | hx
        · omega
        · omega
        · omega
        · have := ih (i + 3) x hx
          omega
      · have := ih (i + 3) x hx
        omega

/-- If the mode predicates agree on all visited sample IDs, the loop produces
the same columns. -/
theorem selCols_congr (sl₁ sl₂ : Finset String) (rm₁ rm₂ : Bool)
    (l : List String)
    (hagree : ∀ s ∈ sampleIds l, keepGroup sl₁ rm₁ s = keepGroup sl₂ rm₂ s) :
    ∀ i, selCols sl₁ rm₁ l i = selCols sl₂ rm₂ l i := by
  induction l using groups_rec with
  | h0 => intro i; simp [selCols]
  | h1 s =>
      intro i
      have hs := hagree s (by simp [sampleIds])
      simp [selCols, hs]
  | h2 s t =>
      intro i
      have hs := hagree s (by simp [sampleIds])
      simp [selCols, hs]
  | h3 s t u rest ih =>
      intro i
      have hs := hagree s (by simp [sampleIds])
      have hrest : ∀ s ∈ sampleIds rest, keepGroup sl₁ rm₁ s = keepGroup sl₂ rm₂ s := by
        intro x hx
        exact hagree x (by simp [sampleIds, hx])
      simp only [selCols, hs, ih hrest]

/-- If the mode predicates agree on all visited sample IDs, the loop keeps
the same sample set. -/
theorem selKept_congr (sl₁ sl₂ : Finset String) (rm₁ rm₂ : Bool)
    (l : List String)
    (hagree : ∀ s ∈ sampleIds l, keepGroup sl₁ rm₁ s = keepGroup sl₂ rm₂ s) :
    selKept sl₁ rm₁ l = selKept sl₂ rm₂ l := by
  rw [selKept_eq, selKept_eq, List.filter_congr hagree]

/-- Destructuring a successful return of `find_columns_to_keep`. -/
theorem find_columns_eq_some {h : String} {S : Finset String} {rm : Bool}
    {cols : List Nat} {kept removed : Finset String}
    (hres : find_columns_to_keep h S rm = some (cols, kept, removed)) :
    cols = 1 :: 2 :: 3 :: selCols S rm ((splitTab h).drop 3) 3
    ∧ kept = selKept S rm ((splitTab h).drop 3)
    ∧ removed = (sampleIds ((splitTab h).drop 3)).toFinset
        \ selKept S rm ((splitTab h).drop 3)
    ∧ selKept S rm ((splitTab h).drop 3) ≠ ∅ := by
  simp only [find_columns_to_keep] at hres
  split at hres
  · exact absurd hres (by simp)
  · rename_i hk
    simp only [Option.some.injEq, Prod.mk.injEq] at hres
    exact ⟨hres.1.symm, hres.2.1.symm, hres.2.2.symm, hk⟩

/-- Dropping one complete group steps the positional lookup by 3. -/
theorem getElem?_cons3 {α : Type} (a b c : α) (l : List α) (n : Nat) :
    (a :: b :: c :: l)[n + 3]? = l[n]? := by
  show (a :: b :: c :: l)[n + 2 + 1]? = l[n]?
  rw [List.getElem?_cons_succ]
  show (b :: c :: l)[n + 1 + 1]? = l[n]?
  rw [List.getElem?_cons_succ, List.getElem?_cons_succ]

/-- The visited sample IDs are exactly the fields at positions `3*k` of the
sample-field list — including the head of a trailing partial group. -/
theorem mem_sampleIds_iff {l : List String} {s : String} :
    s ∈ sampleIds l ↔ ∃ k, l[3 * k]? = some s := by
  induction l using groups_rec with
  | h0 => simp [sampleIds]
  | h1 t =>
      simp only [sampleIds, List.mem_singleton]
      constructor
      · intro hst
        exact ⟨0, by simp [hst]⟩
      · rintro ⟨k, hk⟩
        match k with
        | 0 => simpa using hk.symm
        | k + 1 =>
            rw [List.getElem?_eq_none (by simp; omega)] at hk
            exact absurd hk (by simp)
  | h2 t t' =>
      simp only [sampleIds, List.mem_singleton]
      constructor
      · intro hst
        exact ⟨0, by simp [hst]⟩
      · rintro ⟨k, hk⟩
        match k with
        | 0 => simpa using hk.symm
        | k + 1 =>
            rw [List.getElem?_eq_none (by simp; omega)] at hk
            exact absurd hk (by simp)
  | h3 t t' t'' rest ih =>
      simp only [sampleIds, List.mem_cons]
      constructor
      · rintro (hst | hrest)
        · exact ⟨0, by simp [hst]⟩
        · obtain ⟨k, hk⟩ := ih.mp hrest
          refine ⟨k + 1, ?_⟩
          have h3k : 3 * (k + 1) = 3 * k + 3 := by ring
          rw [h3k, getElem?_cons3]
          exact hk
      · rintro ⟨k, hk⟩
        match k with
        | 0 =>
            left
            simpa using hk.symm
        | k + 1 =>
            right
            apply ih.mpr
            refine ⟨k, ?_⟩
            have h3k : 3 * (k + 1) = 3 * k + 3 := by ring
            rw [h3k, getElem?_cons3] at hk
            exact hk

/-! ## Helper lemmas about the sample-list loader -/

/-- The accumulation loop of `read_sample_list` adds exactly the stripped
non-blank lines to the accumulator. -/
theorem foldl_addSample (lines : List String) :
    ∀ acc : Finset String,
      lines.foldl addSample acc
        = acc ∪ ((lines.map pyStrip).filter (fun t => t ≠ "")).toFinset := by
  induction lines with
  | nil => intro acc; simp
  | cons l ls ih =>
      intro acc
      by_cases hl : pyStrip l = ""
      · simp [List.foldl_cons, addSample, hl, ih]
      · simp only [List.foldl_cons, addSample, List.map_cons, List.filter_cons]
        rw [ih]
        simp [hl, Finset.insert_union, Finset.union_insert]

/-- Closed form of `read_sample_list`. -/
theorem read_sample_list_eq (lines : List String) :
    read_sample_list lines
      = (if ((lines.map pyStrip).filter (fun t => t ≠ "")).toFinset = ∅ then none
         else some ((lines.map pyStrip).filter (fun t => t ≠ "")).toFinset) := by
  simp only [read_sample_list]
  rw [foldl_addSample lines ∅, Finset.empty_union]

/-! ## Helper lemmas about suffix recognition -/

/-- A name ending in the compressed matrix suffix also ends in `.gz`. -/
theorem pyEndsWith_beagle_gz {s : String} (h : pyEndsWith s ".beagle.gz" = true) :
    pyEndsWith s ".gz" = true := by
  simp only [pyEndsWith, List.isSuffixOf_iff_suffix] at h ⊢
  exact List.IsSuffix.trans (by decide) h

/-- Splitting always yields at least one field. -/
theorem splitTabAux_length_pos (cs acc : List Char) :
    0 < (splitTabAux cs acc).length := by
  induction cs generalizing acc with
  | nil => simp [splitTabAux]
  | cons c cs ih =>
      by_cases hc : c = '\t' <;> simp [splitTabAux, hc, ih]

/-- A header always has at least one field. -/
theorem splitTab_length_pos (s : String) : 0 < (splitTab s).length :=
  splitTabAux_length_pos s.data []

/-- Appending the default suffix changes the name. -/
theorem append_beagle_ne (o : String) : o ++ ".beagle" ≠ o := by
  intro h
  have hlen := congrArg String.length h
  rw [String.length_append] at hlen
  have h7 : ".beagle".length = 7 := by decide
  omega

/-! ## Claims -/

/-- Claim C10: for every header line and every requested ID set and mode for
which `find_columns_to_keep` returns (rather than exiting), the returned
column-index list is strictly increasing — hence all indices are distinct and
each sample's 3-column group appears contiguously and in header order. -/
theorem claim_C10 (h : String) (S : Finset String) (rm : Bool)
    (cols : List Nat) (kept removed : Finset String)
    (hres : find_columns_to_keep h S rm = some (cols, kept, removed)) :
    List.Pairwise (· < ·) cols := by
  obtain ⟨hcols, -, -, -⟩ := find_columns_eq_some hres
  subst hcols
  have hgt := selCols_gt S rm ((splitTab h).drop 3) 3
  have hpw := selCols_pairwise S rm ((splitTab h).drop 3) 3
  simp only [List.pairwise_cons]
  refine ⟨?_, ?_, fun x hx => hgt x hx, hpw⟩
  · intro x hx
    simp only [List.mem_cons] at hx
    rcases hx with rfl | rfl | hx
    · omega
    · omega
    · have := hgt x hx; omega
  · intro x hx
    simp only [List.mem_cons] at hx
    rcases hx with rfl | hx
    · omega
    · have := hgt x hx; omega

/-- Witness for C10 at scenario A. -/
theorem claim_C10_witness :
    find_columns_to_keep scenarioHeader {"S2"} false
        = some ([1, 2, 3, 7, 8, 9], {"S2"}, {"S1", "S3"})
    ∧ List.Pairwise (· < ·) [1, 2, 3, 7, 8, 9] :=
  ⟨by decide,
   claim_C10 scenarioHeader {"S2"} false [1, 2, 3, 7, 8, 9] {"S2"} {"S1", "S3"}
     (by decide)⟩

/-- Claim C1: for every header whose sample IDs are pairwise distinct and
whose sample-field count is a multiple of 3, and every non-empty requested
ID set and mode, the returned column list starts with `[1, 2, 3]` and has
length exactly `3 + 3 * |samples_kept|`; in particular, for the scenario
header with keep-list `{S2}` it equals `[1,2,3,7,8,9]`, and with remove-list
`{S2}` it equals `[1,2,3,4,5,6,10,11,12]`. -/
theorem claim_C1 :
    (∀ (h : String) (S : Finset String) (rm : Bool)
       (cols : List Nat) (kept removed : Finset String),
       (sampleIds ((splitTab h).drop 3)).Nodup →
       ((splitTab h).length - 3) % 3 = 0 →
       S.Nonempty →
       find_columns_to_keep h S rm = some (cols, kept, removed) →
       cols.take 3 = [1, 2, 3] ∧ cols.length = 3 + 3 * kept.card)
    ∧ find_columns_to_keep scenarioHeader {"S2"} false
        = some ([1, 2, 3, 7, 8, 9], {"S2"}, {"S1", "S3"})
    ∧ find_columns_to_keep scenarioHeader {"S2"} true
        = some ([1, 2, 3, 4, 5, 6, 10, 11, 12], {"S1", "S3"}, {"S2"}) := by
  refine ⟨?_, by decide, by decide⟩
  intro h S rm cols kept removed hdup hmul hS hres
  obtain ⟨hcols, hkept, -, -⟩ := find_columns_eq_some hres
  subst hcols hkept
  refine ⟨rfl, ?_⟩
  have hcard : (selKept S rm ((splitTab h).drop 3)).card
      = ((sampleIds ((splitTab h).drop 3)).filter (keepGroup S rm)).length := by
    rw [selKept_eq, List.toFinset_card_of_nodup (hdup.filter _)]
  simp only [List.length_cons, selCols_length, hcard]
  omega

/-- Witness for C1 at scenario A. -/
theorem claim_C1_witness :
    (sampleIds ((splitTab scenarioHeader).drop 3)).Nodup
    ∧ ((splitTab scenarioHeader).length - 3) % 3 = 0
    ∧ ({"S2"} : Finset String).Nonempty
    ∧ [1, 2, 3, 7, 8, 9].take 3 = [1, 2, 3]
    ∧ [1, 2, 3, 7, 8, 9].length = 3 + 3 * ({"S2"} : Finset String).card := by
  have hc := claim_C1.1 scenarioHeader {"S2"} false [1, 2, 3, 7, 8, 9]
    {"S2"} {"S1", "S3"} (by decide) (by decide) (by decide) (by decide)
  exact ⟨by decide, by decide, by decide, hc.1, hc.2⟩

/-- Claim C4: for every header with pairwise-distinct sample IDs containing
`N` samples, every non-empty requested ID set, and either mode,
`samples_kept` and `samples_removed` are disjoint, their union is exactly
the set of sample IDs in the header, and `|kept| + |removed| = N`. -/
theorem claim_C4 (h : String) (S : Finset String) (rm : Bool)
    (cols : List Nat) (kept removed : Finset String)
    (hdup : (sampleIds ((splitTab h).drop 3)).Nodup)
    (hS : S.Nonempty)
    (hres : find_columns_to_keep h S rm = some (cols, kept, removed)) :
    Disjoint kept removed
    ∧ kept ∪ removed = (sampleIds ((splitTab h).drop 3)).toFinset
    ∧ kept.card + removed.card = (sampleIds ((splitTab h).drop 3)).length := by
  obtain ⟨-, hkept, hrem, -⟩ := find_columns_eq_some hres
  subst hkept hrem
  have hsub := selKept_subset S rm ((splitTab h).drop 3)
  refine ⟨Finset.disjoint_sdiff, Finset.union_sdiff_of_subset hsub, ?_⟩
  have hcard := Finset.card_sdiff_add_card_eq_card hsub
  rw [List.toFinset_card_of_nodup hdup] at hcard
  omega

/-- Witness for C4 at scenario A. -/
theorem claim_C4_witness :
    Disjoint ({"S2"} : Finset String) ({"S1", "S3"} : Finset String)
    ∧ ({"S2"} : Finset String) ∪ {"S1", "S3"}
        = (sampleIds ((splitTab scenarioHeader).drop 3)).toFinset
    ∧ ({"S2"} : Finset String).card + ({"S1", "S3"} : Finset String).card
        = (sampleIds ((splitTab scenarioHeader).drop 3)).length :=
  claim_C4 scenarioHeader {"S2"} false [1, 2, 3, 7, 8, 9] {"S2"} {"S1", "S3"}
    (by decide) (by decide) (by decide)

/-- Claim C5: for every header and every requested set `S`, keep mode with
`S` and remove mode with the complement of `S` relative to the header's
sample set yield identical results (same kept set, column list and removed
set, and the same exit behaviour). -/
theorem claim_C5 (h : String) (S : Finset String) :
    find_columns_to_keep h S false
      = find_columns_to_keep h (headerSamples h \ S) true := by
  have hagree : ∀ s ∈ sampleIds ((splitTab h).drop 3),
      keepGroup S false s = keepGroup (headerSamples h \ S) true s := by
    intro s hs
    have hmem : s ∈ headerSamples h := List.mem_toFinset.mpr hs
    by_cases hsS : s ∈ S
    · simp [keepGroup, Finset.mem_sdiff, hsS]
    · simp [keepGroup, Finset.mem_sdiff, hsS, hmem]
  simp only [find_columns_to_keep,
    selKept_congr S (headerSamples h \ S) false true _ hagree,
    selCols_congr S (headerSamples h \ S) false true _ hagree]

/-- Claim C6: `find_columns_to_keep` fails (exits, modelled as `none`) if and
only if the computed kept set is empty; in particular, keep mode with a
requested set disjoint from the header's samples fails, and remove mode with
a requested set containing all the header's samples fails. -/
theorem claim_C6 (h : String) (S : Finset String) :
    (∀ rm : Bool, find_columns_to_keep h S rm = none
        ↔ selKept S rm ((splitTab h).drop 3) = ∅)
    ∧ (Disjoint S (headerSamples h) → find_columns_to_keep h S false = none)
    ∧ (headerSamples h ⊆ S → find_columns_to_keep h S true = none) := by
  refine ⟨?_, ?_, ?_⟩
  · intro rm
    by_cases hk : selKept S rm ((splitTab h).drop 3) = ∅ <;>
      simp [find_columns_to_keep, hk]
  · intro hdisj
    have hk : selKept S false ((splitTab h).drop 3) = ∅ := by
      rw [Finset.eq_empty_iff_forall_not_mem]
      intro s hs
      obtain ⟨hmem, hkp⟩ := mem_selKept.mp hs
      simp only [keepGroup, Bool.false_eq_true, if_false, decide_eq_true_eq] at hkp
      exact Finset.disjoint_left.mp hdisj hkp (List.mem_toFinset.mpr hmem)
    simp [find_columns_to_keep, hk]
  · intro hsup
    have hk : selKept S true ((splitTab h).drop 3) = ∅ := by
      rw [Finset.eq_empty_iff_forall_not_mem]
      intro s hs
      obtain ⟨hmem, hkp⟩ := mem_selKept.mp hs
      simp only [keepGroup, if_true, decide_eq_true_eq] at hkp
      exact hkp (hsup (List.mem_toFinset.mpr hmem))
    simp [find_columns_to_keep, hk]

/-- Witness for C6 at scenarios C and D. -/
theorem claim_C6_witness :
    find_columns_to_keep scenarioHeader {"S4"} false = none
    ∧ find_columns_to_keep scenarioHeader {"S1", "S2", "S3", "S4"} true = none :=
  ⟨(claim_C6 scenarioHeader {"S4"}).2.1 (Finset.disjoint_left.mpr (by decide)),
   (claim_C6 scenarioHeader {"S1", "S2", "S3", "S4"}).2.2 (by decide)⟩

/-- Claim C7: in both modes the reported requested-but-absent set equals
`requestedIDs − (kept ∪ removedFromFile)`, is disjoint from the header's
sample set, and when the selection succeeds the run proceeds to the transform
stage (the absent set only produces a warning, never a failure). -/
theorem claim_C7 (h : String) (S : Finset String) (rm : Bool)
    (cols : List Nat) (kept removed : Finset String)
    (hres : find_columns_to_keep h S rm = some (cols, kept, removed)) :
    samplesNotFound S kept removed rm = S \ (kept ∪ removed)
    ∧ Disjoint (samplesNotFound S kept removed rm) (headerSamples h)
    ∧ ∀ (lines : List String) (out : String) (tr : TransformResult),
        read_sample_list lines = some S →
        subset_beagle true lines h out rm tr
          = finishTransform (addBeagleSuffix out) tr := by
  obtain ⟨-, hkept, hrem, -⟩ := find_columns_eq_some hres
  have hmain : samplesNotFound S kept removed rm = S \ (kept ∪ removed) := by
    subst hkept hrem
    cases rm with
    | true =>
        have hsnf : ∀ kp rem : Finset String,
            samplesNotFound S kp rem true = (S \ rem) \ kp := by
          intro kp rem; simp [samplesNotFound]
        rw [hsnf]
        ext s
        simp only [Finset.mem_sdiff, Finset.mem_union]
        tauto
    | false =>
        have hsnf : ∀ kp rem : Finset String,
            samplesNotFound S kp rem false = S \ kp := by
          intro kp rem; simp [samplesNotFound]
        rw [hsnf]
        ext s
        simp only [Finset.mem_sdiff, Finset.mem_union, List.mem_toFinset]
        constructor
        · rintro ⟨hsS, hks⟩
          refine ⟨hsS, ?_⟩
          rintro (hk | ⟨hall, hnk⟩)
          · exact hks hk
          · exact hnk (mem_selKept.mpr ⟨hall, by simp [keepGroup, hsS]⟩)
        · rintro ⟨hsS, hno⟩
          exact ⟨hsS, fun hk => hno (Or.inl hk)⟩
  have hunion : kept ∪ removed = (sampleIds ((splitTab h).drop 3)).toFinset := by
    subst hkept hrem
    exact Finset.union_sdiff_of_subset (selKept_subset S rm ((splitTab h).drop 3))
  refine ⟨hmain, ?_, ?_⟩
  · rw [hmain, hunion]
    exact Finset.sdiff_disjoint
  · intro lines out tr hlines
    simp [subset_beagle, hlines, hres]

/-- Witness for C7: scenario A with an extra absent sample `S9`. -/
theorem claim_C7_witness :
    samplesNotFound {"S2", "S9"} {"S2"} {"S1", "S3"} false
        = ({"S2", "S9"} : Finset String) \ ({"S2"} ∪ {"S1", "S3"})
    ∧ subset_beagle true ["S9", "S2"] scenarioHeader "out" false ⟨0, true, 7⟩
        = finishTransform (addBeagleSuffix "out") ⟨0, true, 7⟩ := by
  have hc := claim_C7 scenarioHeader {"S2", "S9"} false [1, 2, 3, 7, 8, 9]
    {"S2"} {"S1", "S3"} (by decide)
  exact ⟨hc.1, hc.2.2 ["S9", "S2"] "out" ⟨0, true, 7⟩ (by decide)⟩

/-- Claim C3 counterexample: the transformer exits 0 and the output file
exists but is empty (0 bytes); the run nevertheless reports success, with a
0-byte output — contradicting the claim that a zero-byte output is treated
as a failure. -/
theorem claim_C3_counterexample :
    subset_beagle true ["S2"] scenarioHeader "out" false ⟨0, true, 0⟩
      = Except.ok ("out.beagle", 0) := by decide

/-- Claim C3 amended: after the transformer exits 0, the run reports success
if and only if the output file exists; the output size is reported but never
checked, so a zero-byte output file still counts as success — only a missing
output file is treated as a failure. -/
theorem claim_C3_amended_thm (o : String) (tr : TransformResult)
    (h0 : tr.returnCode = 0) :
    finishTransform o tr
      = if tr.outputExists then Except.ok (o, tr.outputSize)
        else Except.error RunError.outputMissing := by
  simp [finishTransform, h0]

/-- Witness for the amended C3: exit 0 with a missing output file fails. -/
theorem claim_C3_witness :
    finishTransform "out.beagle" ⟨0, false, 0⟩
      = Except.error RunError.outputMissing := by
  have hc := claim_C3_amended_thm "out.beagle" ⟨0, false, 0⟩ rfl
  simpa using hc

/-- Claim C2 counterexample: for the 4-field header `m\ta1\ta2\tS1` (one
trailing partial sample group consisting of the single field `S1`), the
partial group DOES contribute a sample ID (`S1` is kept), and the returned
plan contains the indices 5 and 6, which exceed the header's field count 4 —
contradicting the claim that the partial group is ignored and all indices
are bounded by the field count. -/
theorem claim_C2_counterexample :
    find_columns_to_keep "m\ta1\ta2\tS1" {"S1"} false
        = some ([1, 2, 3, 4, 5, 6], {"S1"}, (∅ : Finset String))
    ∧ (splitTab "m\ta1\ta2\tS1").length = 4
    ∧ ((splitTab "m\ta1\ta2\tS1").length - 3) % 3 ≠ 0
    ∧ ¬ (∀ c ∈ [1, 2, 3, 4, 5, 6], c ≤ 4) :=
  ⟨by decide, by decide, by decide, by decide⟩

/-- Claim C2 amended: the loop visits every field at position `3*k` of the
sample fields, including the first field of a trailing partial group, which
contributes a sample ID to kept/removed like any complete group; a kept
partial group appends indices that may exceed the header's field count by up
to 2 (every index in the plan is at most the field count plus 2). -/
theorem claim_C2_amended_thm (h : String) (S : Finset String) (rm : Bool)
    (cols : List Nat) (kept removed : Finset String)
    (hres : find_columns_to_keep h S rm = some (cols, kept, removed)) :
    (∀ s, s ∈ kept ∪ removed ↔ ∃ k, ((splitTab h).drop 3)[3 * k]? = some s)
    ∧ ∀ c ∈ cols, c ≤ (splitTab h).length + 2 := by
  obtain ⟨hcols, hkept, hrem, -⟩ := find_columns_eq_some hres
  constructor
  · intro s
    have hunion : kept ∪ removed = (sampleIds ((splitTab h).drop 3)).toFinset := by
      subst hkept hrem
      exact Finset.union_sdiff_of_subset (selKept_subset S rm ((splitTab h).drop 3))
    rw [hunion, List.mem_toFinset, mem_sampleIds_iff]
  · intro c hc
    subst hcols
    by_cases hlen : (splitTab h).length ≤ 3
    · rw [List.drop_eq_nil_of_le hlen] at hc
      simp only [List.mem_cons, selCols] at hc
      have hp := splitTab_length_pos h
      rcases hc with rfl | rfl | rfl | hc
      · omega
      · omega
      · omega
      · simp at hc
    · simp only [List.mem_cons] at hc
      rcases hc with rfl | rfl | rfl | hc
      · omega
      · omega
      · omega
      · have hb := selCols_le S rm ((splitTab h).drop 3) 3 c hc
        rw [List.length_drop] at hb
        omega

/-- Witness for the amended C2 at the partial-group header. -/
theorem claim_C2_witness :
    (("S1" ∈ ({"S1"} : Finset String) ∪ (∅ : Finset String))
        ↔ ∃ k, ((splitTab "m\ta1\ta2\tS1").drop 3)[3 * k]? = some "S1")
    ∧ ∀ c ∈ [1, 2, 3, 4, 5, 6], c ≤ (splitTab "m\ta1\ta2\tS1").length + 2 := by
  have hc := claim_C2_amended_thm "m\ta1\ta2\tS1" {"S1"} false
    [1, 2, 3, 4, 5, 6] {"S1"} ∅ (by decide)
  exact ⟨hc.1 "S1", hc.2⟩

/-- Claim C8: `read_sample_list` returns exactly the set of
whitespace-trimmed non-blank lines of the list file (duplicated lines
collapse to one entry and change nothing downstream), and fails — before the
input header is ever consulted — when zero entries survive filtering, e.g.
when the file contains only blank lines. -/
theorem claim_C8 (lines : List String) :
    (∀ S, read_sample_list lines = some S →
       ∀ s, s ∈ S ↔ (s ≠ "" ∧ ∃ line ∈ lines, pyStrip line = s))
    ∧ read_sample_list (lines ++ lines) = read_sample_list lines
    ∧ ((∀ line ∈ lines, pyStrip line = "") →
        read_sample_list lines = none
        ∧ ∀ (header out : String) (rm : Bool) (tr : TransformResult),
            subset_beagle true lines header out rm tr
              = Except.error RunError.emptySampleList) := by
  refine ⟨?_, ?_, ?_⟩
  · intro S hS s
    rw [read_sample_list_eq] at hS
    by_cases hT : ((lines.map pyStrip).filter (fun t => t ≠ "")).toFinset = ∅
    · rw [if_pos hT] at hS
      exact absurd hS (by simp)
    · rw [if_neg hT] at hS
      obtain ⟨rfl⟩ := hS
      simp only [List.mem_toFinset, List.mem_filter, List.mem_map]
      constructor
      · rintro ⟨⟨line, hline, rfl⟩, hne⟩
        exact ⟨by simpa using hne, line, hline, rfl⟩
      · rintro ⟨hne, line, hline, rfl⟩
        exact ⟨⟨line, hline, rfl⟩, by simpa using hne⟩
  · rw [read_sample_list_eq, read_sample_list_eq]
    rw [List.map_append, List.filter_append, List.toFinset_append,
      Finset.union_self]
  · intro hblank
    have hnil : (lines.map pyStrip).filter (fun t => t ≠ "") = [] := by
      rw [List.filter_eq_nil]
      intro a ha
      simp only [List.mem_map] at ha
      obtain ⟨line, hline, rfl⟩ := ha
      simp [hblank line hline]
    have hnone : read_sample_list lines = none := by
      rw [read_sample_list_eq, hnil]
      simp
    refine ⟨hnone, ?_⟩
    intro header out rm tr
    simp [subset_beagle, hnone]

/-- Witness for C8 at scenario E: a list file of blank lines only. -/
theorem claim_C8_witness :
    read_sample_list ["", "  "] = none
    ∧ subset_beagle true ["", "  "] scenarioHeader "out" false ⟨0, true, 3⟩
        = Except.error RunError.emptySampleList := by
  have hc := (claim_C8 ["", "  "]).2.2 (by decide)
  exact ⟨hc.1, hc.2 scenarioHeader "out" false ⟨0, true, 3⟩⟩

/-- Claim C9: the effective output path gains the default `.beagle` suffix
exactly when the caller's output name ends with neither the plain nor the
compressed matrix suffix; output compression is derived purely from the
resulting filename, with a `.gz` suffix meaning compressed and anything else
meaning plain text. -/
theorem claim_C9 :
    (∀ o : String, addBeagleSuffix o = o ++ ".beagle"
        ↔ (pyEndsWith o ".beagle" = false ∧ pyEndsWith o ".beagle.gz" = false))
    ∧ (∀ o : String,
        (pyEndsWith o ".beagle" = true ∨ pyEndsWith o ".beagle.gz" = true) →
        addBeagleSuffix o = o)
    ∧ (∀ f : String, output_is_gz f = pyEndsWith f ".gz") := by
  refine ⟨?_, ?_, ?_⟩
  · intro o
    constructor
    · intro heq
      by_cases hc : (!(pyEndsWith o ".beagle")
          && !(pyEndsWith o ".beagle.gz")) = true
      · simpa [Bool.and_eq_true, Bool.not_eq_true'] using hc
      · exfalso
        have ho : addBeagleSuffix o = o := by
          rw [addBeagleSuffix, if_neg hc]
        exact append_beagle_ne o (heq.symm.trans ho)
    · rintro ⟨h1, h2⟩
      rw [addBeagleSuffix, if_pos (by simp [h1, h2])]
  · intro o hor
    have hc : ¬ ((!(pyEndsWith o ".beagle")
        && !(pyEndsWith o ".beagle.gz")) = true) := by
      rcases hor with h1 | h1 <;> simp [h1]
    rw [addBeagleSuffix, if_neg hc]
  · intro f
    cases hgz : pyEndsWith f ".gz" with
    | true => simp [output_is_gz, hgz]
    | false =>
        cases hbgz : pyEndsWith f ".beagle.gz" with
        | true => exact absurd (pyEndsWith_beagle_gz hbgz) (by simp [hgz])
        | false => simp [output_is_gz, hgz, hbgz]

/-- Witness for C9: `out` gains the suffix, `x.beagle.gz` keeps its name and
is recognised as compressed. -/
theorem claim_C9_witness :
    addBeagleSuffix "out" = "out" ++ ".beagle"
    ∧ addBeagleSuffix "x.beagle.gz" = "x.beagle.gz"
    ∧ output_is_gz "x.beagle.gz" = pyEndsWith "x.beagle.gz" ".gz" :=
  ⟨(claim_C9.1 "out").mpr (by decide),
   claim_C9.2.1 "x.beagle.gz" (Or.inr (by decide)),
   claim_C9.2.2 "x.beagle.gz"⟩

end SubsetBeagle
